import Mathlib

/-!
Verification development for the csvparser repository
(`src/csvparser.c`, `include/csvparser.h`).

The C code is shallowly embedded: C strings become `List Char` (the bytes
before the terminating NUL), the `FILE *` stream becomes the list of bytes
not yet consumed, and the parser struct becomes a Lean structure.  Heap
allocation is not modelled (the C code aborts or returns NULL only on
allocator exhaustion, which is outside the properties considered here).
-/

namespace CsvParser

/-- The three scanner states of `s_parse_line_to_row`
(`ST_FIELD`, `ST_QUOTED_FIELD`, `ST_QUOTE_IN_QUOTED`). -/
inductive ScanState where
  | field
  | qfield
  | qesc
deriving DecidableEq, Repr

/-- Rank used only for the termination measure of the scan loop: the
`qesc`-other transition re-processes the current byte without advancing,
but drops from `qesc` to `field`. -/
def stRank : ScanState → Nat
  | .qesc => 1
  | _ => 0

/-- The `while (*p)` scan loop of `s_parse_line_to_row`
(src/csvparser.c lines 156-280), including the final push of the
accumulated buffer after the loop.  `input` is the unread suffix of the
line, `buf` the field accumulation buffer, `acc` the fields emitted so
far.  Both branches of the C epilogue (lines 272-280) push `buf`, so the
empty-input case returns `acc ++ [buf]` for every state. -/
def parseLoop (delim : Char) (input : List Char) (st : ScanState)
    (buf : List Char) (acc : List (List Char)) : List (List Char) :=
  match input, st with
  | [], _ => acc ++ [buf]
  | c :: rest, .field =>
    if c = delim then
      parseLoop delim rest .field [] (acc ++ [buf])
    else if c = '"' then
      (if buf = [] then parseLoop delim rest .qfield buf acc
       else parseLoop delim rest .field (buf ++ ['"']) acc)
    else if c = '\r' ∨ c = '\n' then
      acc ++ [buf]
    else
      parseLoop delim rest .field (buf ++ [c]) acc
  | c :: rest, .qfield =>
    if c = '"' then
      parseLoop delim rest .qesc buf acc
    else
      parseLoop delim rest .qfield (buf ++ [c]) acc
  | c :: rest, .qesc =>
    if c = '"' then
      parseLoop delim rest .qfield (buf ++ ['"']) acc
    else if c = delim then
      parseLoop delim rest .field [] (acc ++ [buf])
    else if c = '\r' ∨ c = '\n' ∨ c = '\x00' then
      (acc ++ [buf]) ++ [[]]
    else
      parseLoop delim (c :: rest) .field [] (acc ++ [buf])
termination_by (2 * input.length + stRank st)
decreasing_by all_goals (simp [stRank]; try omega)

/-- `s_parse_line_to_row` (src/csvparser.c lines 139-300): tokenize one
logical line into its ordered list of fields. -/
def s_parse_line_to_row (line : List Char) (delim : Char) : List (List Char) :=
  parseLoop delim line .field [] []

/-- Naive split of a line on the delimiter byte (the reference function of
spec property P2: "splitting a line on the delimiter byte").  Splitting the
empty line yields one empty field. -/
def splitFields (delim : Char) : List Char → List (List Char)
  | [] => [[]]
  | c :: rest =>
    if c = delim then [] :: splitFields delim rest
    else (splitFields delim rest).modifyHead (fun f => c :: f)

/-- C-locale `isspace`, as used by `s_line_is_skippable`
(src/csvparser.c line 111): space, tab, LF, vertical tab, form feed, CR. -/
def c_isspace (c : Char) : Bool :=
  c == ' ' || c == '\t' || c == '\n' || c == '\x0b' || c == '\x0c' || c == '\r'

/-- `s_line_is_skippable` (src/csvparser.c lines 109-116): after dropping
leading whitespace the line is empty or starts with a hash. -/
def s_line_is_skippable (s : List Char) : Bool :=
  match s.dropWhile c_isspace with
  | [] => true
  | c :: _ => c == '#'

/-- POSIX `getline` on the remaining stream bytes: returns the next
physical line, including its terminating LF when one is present (the last
line of a file with no trailing LF is still delivered), together with the
unread rest; `none` at end of input. -/
def getline : List Char → Option (List Char × List Char)
  | [] => none
  | c :: rest =>
    if c = '\n' then some ([c], rest)
    else
      match getline rest with
      | none => some ([c], [])
      | some (l, r) => some (c :: l, r)

/-- Number of physical lines of a byte stream: how many successful
`getline` calls it takes to drain it (see `physLines_getline`). -/
def physLines : List Char → Nat
  | [] => 0
  | c :: rest =>
    if c = '\n' then 1 + physLines rest
    else max 1 (physLines rest)

/-- Trailing-terminator stripping of `s_read_next_non_skippable_line`
(src/csvparser.c lines 335-342): strip one trailing LF, and a trailing CR
only when an LF was just stripped. -/
def stripNl (l : List Char) : List Char :=
  if l.getLast? = some '\n' then
    if l.dropLast.getLast? = some '\r' then l.dropLast.dropLast
    else l.dropLast
  else l

theorem getline_rest_length :
    ∀ {cs l r : List Char}, getline cs = some (l, r) → r.length < cs.length := by
  intro cs
  induction cs with
  | nil => intro l r h; simp [getline] at h
  | cons c rest ih =>
    intro l r h
    simp only [getline] at h
    split at h
    · cases h; simp
    · cases hg : getline rest with
      | none => rw [hg] at h; cases h; simp
      | some lr =>
        rw [hg] at h
        cases lr with
        | mk l' r' =>
          cases h
          have := ih hg
          simp; omega

/-- `s_read_next_non_skippable_line` (src/csvparser.c lines 326-349):
repeatedly `getline`, counting every physical line read in `line_no`,
strip the trailing terminator, skip skippable lines, and return the first
non-skippable stripped line; `none` at end of input.  Returns the line (if
any), the unread rest of the stream, and the updated `line_no`. -/
def s_read_next_non_skippable_line (cs : List Char) (line_no : Nat) :
    Option (List Char) × List Char × Nat :=
  match h : getline cs with
  | none => (none, cs, line_no)
  | some (line, rest) =>
    if s_line_is_skippable (stripNl line) then
      s_read_next_non_skippable_line rest (line_no + 1)
    else (some (stripNl line), rest, line_no + 1)
termination_by cs.length
decreasing_by exact getline_rest_length h

/-- First byte of a C string: `*s`, which is NUL exactly when the string
is empty.  A missing (`none`) string has no first byte; callers test for
`none` separately, mirroring the C null-pointer tests. -/
def cstrFirst : Option (List Char) → Char
  | some (c :: _) => c
  | _ => '\x00'

/-- Delimiter resolution of `csv_parser_init` (src/csvparser.c
lines 368-373): `(delim && *delim == ',') ? ',' : (delim && *delim &&
*delim != LF && *delim != CR && *delim != QUOTE) ? *delim : ','`. -/
def resolveDelim (cfg : Option (List Char)) : Char :=
  if cfg.isSome ∧ cstrFirst cfg = ',' then ','
  else if cfg.isSome ∧ cstrFirst cfg ≠ '\x00' ∧ cstrFirst cfg ≠ '\n' ∧
      cstrFirst cfg ≠ '\r' ∧ cstrFirst cfg ≠ '"' then cstrFirst cfg
  else ','

/-- Spec-side delimiter rule, written from the words of §3 of the spec:
"The delimiter is a single byte that is never one of LF, CR, quote, NUL.
If the configuration requests one of these, the delimiter silently
resolves to comma.  An empty or absent configuration also resolves to
comma" and "only the first byte is used".  Stated separately so that
`resolveDelim` (from the code) can be proved equal to it. -/
def specResolveDelim (cfg : Option (List Char)) : Char :=
  match cfg with
  | none => ','
  | some [] => ','
  | some (c :: _) =>
    if c = '\n' ∨ c = '\r' ∨ c = '"' ∨ c = '\x00' then ',' else c

/-- The parser struct `csv_parser_td` (include/csvparser.h lines 92-99).
`fp = none` models an unopened handle; `fp = some cs` models an open
handle whose unread remainder is `cs`. -/
structure csv_parser_st where
  fp : Option (List Char)
  filename : Option (List Char)
  delim : Char
  has_header : Bool
  line_no : Nat
  header : Option (List (List Char))
deriving DecidableEq, Repr

/-- `csv_parser_init` (src/csvparser.c lines 353-376): unopened handle,
`line_no = 0`, no cached header, delimiter resolved from the first
configuration byte. -/
def csv_parser_init (filename : Option (List Char)) (delim : Option (List Char))
    (has_header : Bool) : csv_parser_st :=
  { fp := none
    filename := filename
    delim := resolveDelim delim
    has_header := has_header
    line_no := 0
    header := none }

/-- Result of `csv_parser_header`.  `ub` records that the C code reached
`getline(lineptr, nptr, NULL)`: `csv_parser_header` reads from
`csv_parser->fp` without ever opening it, so a NULL handle is passed to
`getline`, which is undefined behaviour.  `ok row p` is a normal return
of `row` with the parser left in state `p`. -/
inductive HeaderResult where
  | ub
  | ok (row : Option (List (List Char))) (p : Option csv_parser_st)
deriving DecidableEq, Repr

/-- `csv_parser_header` (src/csvparser.c lines 419-442): NULL parser or
`has_header` false returns NULL; a cached header is returned as is;
otherwise the next non-skippable line is read **from the current handle,
which is never opened here** (a NULL handle reaches `getline`: `ub`),
tokenized, cached and returned; end of input returns NULL. -/
def csv_parser_header (p? : Option csv_parser_st) : HeaderResult :=
  match p? with
  | none => .ok none none
  | some p =>
    if p.has_header = false then .ok none (some p)
    else
      match p.header with
      | some h => .ok (some h) (some p)
      | none =>
        match p.fp with
        | none => .ub
        | some cs =>
          match s_read_next_non_skippable_line cs p.line_no with
          | (none, rest, n) =>
            .ok none (some { p with fp := some rest, line_no := n })
          | (some line, rest, n) =>
            let row := s_parse_line_to_row line p.delim
            .ok (some row)
              (some { p with fp := some rest, line_no := n, header := some row })

/-- The tail of `csv_parser_row` after the handle is known to be open
(src/csvparser.c lines 459-477): consume the header if requested and not
yet cached, then read, tokenize and return the next non-skippable line. -/
def csv_parser_row_opened (p : csv_parser_st) :
    Option (List (List Char)) × Option csv_parser_st :=
  let p1 :=
    if p.has_header = true ∧ p.header = none then
      match csv_parser_header (some p) with
      | .ok _ (some q) => q
      | _ => p
    else p
  match p1.fp with
  | none => (none, some p1)
  | some cs =>
    match s_read_next_non_skippable_line cs p1.line_no with
    | (none, rest, n) => (none, some { p1 with fp := some rest, line_no := n })
    | (some line, rest, n) =>
      (some (s_parse_line_to_row line p1.delim),
       some { p1 with fp := some rest, line_no := n })

/-- `csv_parser_row` (src/csvparser.c lines 446-478).  `fs` is the content
of the file at `p.filename` (`none` when `fopen` fails): a NULL parser
returns NULL; an unopened handle is opened from `fs`, and a failed open
returns NULL with the parser otherwise unchanged. -/
def csv_parser_row (fs : Option (List Char)) (p? : Option csv_parser_st) :
    Option (List (List Char)) × Option csv_parser_st :=
  match p? with
  | none => (none, none)
  | some p =>
    match p.fp with
    | none =>
      match fs with
      | none => (none, some p)
      | some content => csv_parser_row_opened { p with fp := some content }
    | some _ => csv_parser_row_opened p

/-- Deallocation / teardown steps, used to observe that the destroy
operations are no-ops on NULL arguments. -/
inductive Action where
  | freeFilename
  | closeFile
  | freeHeader
  | freeParserStruct
  | freeFields (n : Nat)
  | freeFieldArray
  | freeRowStruct
deriving DecidableEq, Repr

/-- `csv_parser_destroy` (src/csvparser.c lines 380-399) as the sequence
of teardown actions it performs: nothing for a NULL parser; otherwise
free the filename if present, close the handle if open, release the
cached header if present, and free the struct. -/
def csv_parser_destroy : Option csv_parser_st → List Action
  | none => []
  | some p =>
    (if p.filename.isSome then [Action.freeFilename] else []) ++
    (if p.fp.isSome then [Action.closeFile] else []) ++
    (if p.header.isSome then [Action.freeHeader] else []) ++
    [Action.freeParserStruct]

/-- `csv_parser_destroy_row` (src/csvparser.c lines 403-415) as the
sequence of teardown actions it performs: nothing for a NULL row;
otherwise free each field, the field array, and the struct. -/
def csv_parser_destroy_row : Option (List (List Char)) → List Action
  | none => []
  | some row => [Action.freeFields row.length, Action.freeFieldArray,
                 Action.freeRowStruct]

/-- A successful read consumes at least one byte of the stream. -/
theorem s_read_next_some_length (cs : List Char) (n : Nat) :
    ∀ {l rest : List Char} {n2 : Nat},
      s_read_next_non_skippable_line cs n = (some l, rest, n2) →
      rest.length < cs.length := by
  induction cs, n using s_read_next_non_skippable_line.induct with
  | case1 cs n hg =>
    intro l rest n2 h
    rw [s_read_next_non_skippable_line.eq_def] at h
    split at h
    · exact absurd h (by simp)
    · rename_i line2 rest2 heq
      rw [hg] at heq
      exact absurd heq (by simp)
  | case2 cs n line rest1 hg hskip ih =>
    intro l rest n2 h
    rw [s_read_next_non_skippable_line.eq_def] at h
    split at h
    · rename_i heq
      rw [hg] at heq
      exact absurd heq (by simp)
    · rename_i line2 rest2 heq
      rw [hg] at heq
      simp only [Option.some.injEq, Prod.mk.injEq] at heq
      obtain ⟨hl, hr⟩ := heq
      subst hl; subst hr
      rw [if_pos hskip] at h
      exact lt_trans (ih h) (getline_rest_length hg)
  | case3 cs n line rest1 hg hskip =>
    intro l rest n2 h
    rw [s_read_next_non_skippable_line.eq_def] at h
    split at h
    · rename_i heq
      rw [hg] at heq
      exact absurd heq (by simp)
    · rename_i line2 rest2 heq
      rw [hg] at heq
      simp only [Option.some.injEq, Prod.mk.injEq] at heq
      obtain ⟨hl, hr⟩ := heq
      subst hl; subst hr
      rw [if_neg hskip] at h
      obtain ⟨h1, hr2, h3⟩ : stripNl line = l ∧ rest1 = rest ∧ n + 1 = n2 := by
        simpa using h
      rw [← hr2]
      exact getline_rest_length hg

/-- Draining the stream: call `s_read_next_non_skippable_line` until it
reports end of input, and return the final `line_no`. -/
def drainLineNo (cs : List Char) (n : Nat) : Nat :=
  match h : s_read_next_non_skippable_line cs n with
  | (none, _, n') => n'
  | (some _, rest, n') => drainLineNo rest n'
termination_by cs.length
decreasing_by exact s_read_next_some_length cs n h

/-- Fuel-indexed version of the scan loop `parseLoop`, counting one unit
of fuel per loop iteration; `none` when the fuel runs out.  Used to state
that the loop terminates within `2 * |input| + 2` iterations even though
the QESC-other transition does not advance the cursor. -/
def parseFuel (delim : Char) : Nat → List Char → ScanState → List Char →
    List (List Char) → Option (List (List Char))
  | 0, _, _, _, _ => none
  | _ + 1, [], _, buf, acc => some (acc ++ [buf])
  | fuel + 1, c :: rest, .field, buf, acc =>
    if c = delim then
      parseFuel delim fuel rest .field [] (acc ++ [buf])
    else if c = '"' then
      (if buf = [] then parseFuel delim fuel rest .qfield buf acc
       else parseFuel delim fuel rest .field (buf ++ ['"']) acc)
    else if c = '\r' ∨ c = '\n' then
      some (acc ++ [buf])
    else
      parseFuel delim fuel rest .field (buf ++ [c]) acc
  | fuel + 1, c :: rest, .qfield, buf, acc =>
    if c = '"' then
      parseFuel delim fuel rest .qesc buf acc
    else
      parseFuel delim fuel rest .qfield (buf ++ [c]) acc
  | fuel + 1, c :: rest, .qesc, buf, acc =>
    if c = '"' then
      parseFuel delim fuel rest .qfield (buf ++ ['"']) acc
    else if c = delim then
      parseFuel delim fuel rest .field [] (acc ++ [buf])
    else if c = '\r' ∨ c = '\n' ∨ c = '\x00' then
      some ((acc ++ [buf]) ++ [[]])
    else
      parseFuel delim fuel (c :: rest) .field [] (acc ++ [buf])

/-! Helper lemmas about the scan loop. -/

/-- The scan loop emits at least one field beyond those already in `acc`. -/
theorem parseLoop_len (delim : Char) (input : List Char) (st : ScanState)
    (buf : List Char) (acc : List (List Char)) :
    acc.length + 1 ≤ (parseLoop delim input st buf acc).length := by
  induction input, st, buf, acc using parseLoop.induct delim with
  | case1 st buf acc => rw [parseLoop.eq_def]; cases st <;> simp
  | _ => rw [parseLoop.eq_def]; simp_all; try omega

theorem modifyHead_comp {α : Type} (l : List α) (f g : α → α) :
    (l.modifyHead f).modifyHead g = l.modifyHead (fun x => g (f x)) := by
  cases l <;> simp [List.modifyHead]

/-- In the quoted-field state, when no closing quote follows, the whole
remaining input is accumulated and emitted as the final field (the
lenient unterminated-quote policy). -/
theorem parseLoop_qfield_no_quote (delim : Char) :
    ∀ (input buf : List Char) (acc : List (List Char)), '"' ∉ input →
      parseLoop delim input .qfield buf acc = acc ++ [buf ++ input] := by
  intro input
  induction input with
  | nil => intro buf acc _h; rw [parseLoop.eq_def]; simp
  | cons c rest ih =>
    intro buf acc h
    have hc : ¬c = '"' := fun e => h (by simp [e])
    have hrest : '"' ∉ rest := fun m => h (List.mem_cons_of_mem _ m)
    rw [parseLoop.eq_def]
    simp only [hc, if_false, if_neg]
    rw [ih (buf ++ [c]) acc hrest]
    simp

/-- In the unquoted-field state, a line containing no quote and no line
terminator is tokenized exactly as a naive split on the delimiter. -/
theorem parseLoop_field_split (delim : Char) :
    ∀ (input buf : List Char) (acc : List (List Char)),
      (∀ c ∈ input, ¬(c = '"' ∨ c = '\r' ∨ c = '\n')) →
      parseLoop delim input .field buf acc =
        acc ++ (splitFields delim input).modifyHead (fun f => buf ++ f) := by
  intro input
  induction input with
  | nil =>
    intro buf acc _h
    rw [parseLoop.eq_def]
    simp [splitFields, List.modifyHead]
  | cons c rest ih =>
    intro buf acc h
    have hc := h c (List.mem_cons_self c rest)
    push_neg at hc
    obtain ⟨hq, hr, hn⟩ := hc
    have hrest : ∀ x ∈ rest, ¬(x = '"' ∨ x = '\r' ∨ x = '\n') :=
      fun x m => h x (List.mem_cons_of_mem _ m)
    by_cases hd : c = delim
    · subst hd
      rw [parseLoop.eq_def]
      simp only [if_pos rfl]
      rw [ih [] (acc ++ [buf]) hrest]
      cases hs : splitFields c rest with
      | nil => simp [splitFields, hs, List.modifyHead]
      | cons f fs => simp [splitFields, hs, List.modifyHead]
    · rw [parseLoop.eq_def]
      simp only [hd, hq, hr, hn, if_neg, or_self, if_false]
      rw [ih (buf ++ [c]) acc hrest]
      simp only [splitFields, hd, if_neg, if_false, modifyHead_comp]
      cases hs : splitFields delim rest with
      | nil => simp [List.modifyHead]
      | cons f fs => simp [List.modifyHead]

/-! Helper lemmas about the line reader. -/

theorem getline_none_iff (cs : List Char) : getline cs = none ↔ cs = [] := by
  cases cs with
  | nil => simp [getline]
  | cons c rest =>
    simp only [getline]
    constructor
    · intro h
      split at h
      · exact absurd h (by simp)
      · cases hg : getline rest with
        | none => rw [hg] at h; exact absurd h (by simp)
        | some lr => rw [hg] at h; cases lr; exact absurd h (by simp)
    · intro h; exact absurd h (by simp)

/-- `physLines` counts exactly one line per successful `getline` call. -/
theorem physLines_getline :
    ∀ {cs l r : List Char}, getline cs = some (l, r) →
      physLines cs = 1 + physLines r := by
  intro cs
  induction cs with
  | nil => intro l r h; simp [getline] at h
  | cons c rest ih =>
    intro l r h
    simp only [getline] at h
    by_cases hc : c = '\n'
    · rw [if_pos hc] at h
      cases h
      simp [physLines, hc]
    · rw [if_neg hc] at h
      cases hg : getline rest with
      | none =>
        rw [hg] at h
        cases h
        have hnil : rest = [] := (getline_none_iff rest).mp hg
        subst hnil
        simp [physLines, hc]
      | some lr =>
        rw [hg] at h
        cases lr with
        | mk l2 r2 =>
          cases h
          have := ih hg
          simp only [physLines, hc, if_neg, if_false]
          rw [this]
          omega

/-- Bookkeeping of one `s_read_next_non_skippable_line` call: `line_no`
never decreases, it advances by exactly the number of physical lines the
call consumed, and an end-of-input result means the stream was fully
drained. -/
theorem s_read_next_lineNo (cs : List Char) (n : Nat) :
    ∀ {res : Option (List Char)} {rest : List Char} {n2 : Nat},
      s_read_next_non_skippable_line cs n = (res, rest, n2) →
      n ≤ n2 ∧ n2 + physLines rest = n + physLines cs ∧
        (res = none → rest = []) := by
  induction cs, n using s_read_next_non_skippable_line.induct with
  | case1 cs n hg =>
    intro res rest n2 h
    rw [s_read_next_non_skippable_line.eq_def] at h
    split at h
    · obtain ⟨h1, h2, h3⟩ : none = res ∧ cs = rest ∧ n = n2 := by simpa using h
      subst h2; subst h3
      exact ⟨le_refl n, rfl, fun _ => (getline_none_iff cs).mp hg⟩
    · rename_i line2 rest2 heq
      rw [hg] at heq
      exact absurd heq (by simp)
  | case2 cs n line rest1 hg hskip ih =>
    intro res rest n2 h
    rw [s_read_next_non_skippable_line.eq_def] at h
    split at h
    · rename_i heq
      rw [hg] at heq
      exact absurd heq (by simp)
    · rename_i line2 rest2 heq
      rw [hg] at heq
      simp only [Option.some.injEq, Prod.mk.injEq] at heq
      obtain ⟨hl, hr⟩ := heq
      subst hl; subst hr
      rw [if_pos hskip] at h
      obtain ⟨ih1, ih2, ih3⟩ := ih h
      refine ⟨le_trans (Nat.le_succ n) ih1, ?_, ih3⟩
      rw [physLines_getline hg]
      omega
  | case3 cs n line rest1 hg hskip =>
    intro res rest n2 h
    rw [s_read_next_non_skippable_line.eq_def] at h
    split at h
    · rename_i heq
      rw [hg] at heq
      exact absurd heq (by simp)
    · rename_i line2 rest2 heq
      rw [hg] at heq
      simp only [Option.some.injEq, Prod.mk.injEq] at heq
      obtain ⟨hl, hr⟩ := heq
      subst hl; subst hr
      rw [if_neg hskip] at h
      obtain ⟨h1, h2, h3⟩ : some (stripNl line) = res ∧ rest1 = rest ∧ n + 1 = n2 := by
        simpa using h
      subst h2; subst h3
      refine ⟨Nat.le_succ n, ?_, fun hre => absurd (h1.trans hre) (by simp)⟩
      rw [physLines_getline hg]
      omega

/-- Draining the stream advances `line_no` by exactly the number of
physical lines in the input. -/
theorem drainLineNo_eq (cs : List Char) (n : Nat) :
    drainLineNo cs n = n + physLines cs := by
  induction cs, n using drainLineNo.induct with
  | case1 cs n rest n2 h =>
    obtain ⟨_h1, h2, h3⟩ := s_read_next_lineNo cs n h
    rw [drainLineNo.eq_def, h]
    rw [h3 rfl] at h2
    simp only [physLines] at h2
    show n2 = n + physLines cs
    omega
  | case2 cs n l rest n2 h ih =>
    obtain ⟨_h1, h2, _h3⟩ := s_read_next_lineNo cs n h
    rw [drainLineNo.eq_def, h]
    show drainLineNo rest n2 = n + physLines cs
    rw [ih]
    omega

/-- The fuel-indexed loop agrees with the total loop whenever the fuel
covers twice the input length plus the state rank: every loop iteration
either consumes a byte or drops from `qesc` to `field`, so no position is
visited more than twice. -/
theorem parseFuel_complete (delim : Char) :
    ∀ (fuel : Nat) (input : List Char) (st : ScanState) (buf : List Char)
      (acc : List (List Char)), 2 * input.length + stRank st + 1 ≤ fuel →
      parseFuel delim fuel input st buf acc =
        some (parseLoop delim input st buf acc) := by
  intro fuel
  induction fuel with
  | zero => intro input st buf acc h; omega
  | succ fuel ih =>
    intro input st buf acc h
    cases input with
    | nil =>
      rw [parseLoop.eq_def]
      cases st <;> simp [parseFuel]
    | cons c rest =>
      cases st with
      | field =>
        rw [parseLoop.eq_def]
        simp only [parseFuel]
        split_ifs <;>
          first
            | rfl
            | (apply ih; simp only [stRank, List.length_cons] at h ⊢; omega)
      | qfield =>
        rw [parseLoop.eq_def]
        simp only [parseFuel]
        split_ifs <;>
          first
            | rfl
            | (apply ih; simp only [stRank, List.length_cons] at h ⊢; omega)
      | qesc =>
        rw [parseLoop.eq_def]
        simp only [parseFuel]
        split_ifs <;>
          first
            | rfl
            | (apply ih; simp only [stRank, List.length_cons] at h ⊢; omega)

/-! Helper lemmas about the stream driver. -/

/-- Any row returned by the opened-handle tail of `csv_parser_row` is a
tokenizer output. -/
theorem csv_parser_row_opened_tokenized (p : csv_parser_st)
    {row : List (List Char)} {p2 : Option csv_parser_st}
    (h : csv_parser_row_opened p = (some row, p2)) :
    ∃ line d, row = s_parse_line_to_row line d := by
  simp only [csv_parser_row_opened] at h
  split at h
  · exact absurd h (by simp)
  · rename_i cs heq
    split at h
    · exact absurd h (by simp)
    · rename_i line rest n2 hread
      obtain ⟨h1, _h2⟩ : some (s_parse_line_to_row line _) = some row ∧ _ := by
        simpa using h
      exact ⟨line, _, (Option.some.inj h1).symm⟩

/-- Any row returned by `csv_parser_row` is a tokenizer output. -/
theorem csv_parser_row_tokenized (fs : Option (List Char))
    (p? : Option csv_parser_st) {row : List (List Char)}
    {p2 : Option csv_parser_st}
    (h : csv_parser_row fs p? = (some row, p2)) :
    ∃ line d, row = s_parse_line_to_row line d := by
  simp only [csv_parser_row] at h
  split at h
  · exact absurd h (by simp)
  · rename_i p
    split at h
    · split at h
      · exact absurd h (by simp)
      · exact csv_parser_row_opened_tokenized _ h
    · exact csv_parser_row_opened_tokenized _ h

/-! The claims. -/

/-- Claim C1 (code bug): the claim says `csv_parser_header` on a parser
whose handle has not been opened opens the handle if needed and returns
the first non-skippable line.  The code never opens the handle in
`csv_parser_header`: for every freshly initialized parser with
`has_header` true, the call reaches `getline` with the NULL `fp`
(undefined behaviour), modelled as the `ub` result. -/
theorem csv_parser_header_unopened_is_ub (fn cfg : Option (List Char)) :
    csv_parser_header (some (csv_parser_init fn cfg true)) = HeaderResult.ub := rfl

/-- Claim C2: the tokenizer produces at least one field for every input
line (including the empty line) and every delimiter, and consequently
every row that `csv_parser_row` returns has at least one field. -/
theorem row_field_count_pos (line : List Char) (delim : Char)
    (fs : Option (List Char)) (p? : Option csv_parser_st)
    (row : List (List Char)) (p2 : Option csv_parser_st)
    (h : csv_parser_row fs p? = (some row, p2)) :
    1 ≤ (s_parse_line_to_row line delim).length ∧ 1 ≤ row.length := by
  constructor
  · simpa [s_parse_line_to_row] using parseLoop_len delim line .field [] []
  · obtain ⟨l, d, rfl⟩ := csv_parser_row_tokenized fs p? h
    simpa [s_parse_line_to_row] using parseLoop_len d l .field [] []

theorem row_field_count_pos_witness :
    1 ≤ (s_parse_line_to_row [] ',').length ∧
      1 ≤ ([['a']] : List (List Char)).length :=
  row_field_count_pos [] ',' (some "a\n".toList)
    (some (csv_parser_init (some "f".toList) (some [',']) false)) [['a']]
    (some { fp := some [], filename := some "f".toList, delim := ',',
            has_header := false, line_no := 1, header := none })
    (by simp [csv_parser_row, csv_parser_row_opened, csv_parser_init,
              resolveDelim, cstrFirst, s_read_next_non_skippable_line,
              getline, stripNl, s_line_is_skippable, c_isspace,
              s_parse_line_to_row, parseLoop])

/-- Claim C3: in the QESC state, a byte that is neither a quote, the
delimiter, nor CR/LF/NUL emits the buffer and is re-processed in the
FIELD state with the cursor not advanced; in particular
`"hello"world,next` tokenizes to `hello`, `world`, `next`. -/
theorem qesc_reprocesses_other_byte (delim : Char) (buf : List Char)
    (acc : List (List Char)) (c : Char) (rest : List Char)
    (h1 : ¬c = '"') (h2 : ¬c = delim)
    (h3 : ¬(c = '\r' ∨ c = '\n' ∨ c = '\x00')) :
    parseLoop delim (c :: rest) .qesc buf acc =
        parseLoop delim (c :: rest) .field [] (acc ++ [buf]) ∧
      s_parse_line_to_row "\"hello\"world,next".toList ',' =
        ["hello".toList, "world".toList, "next".toList] := by
  constructor
  · conv_lhs => rw [parseLoop.eq_def]
    simp [h1, h2, h3]
  · simp [s_parse_line_to_row, parseLoop]

theorem qesc_reprocesses_other_byte_witness :
    parseLoop ',' ('w' :: "orld,next".toList) .qesc "hello".toList [] =
        parseLoop ',' ('w' :: "orld,next".toList) .field []
          ([] ++ ["hello".toList]) ∧
      s_parse_line_to_row "\"hello\"world,next".toList ',' =
        ["hello".toList, "world".toList, "next".toList] :=
  qesc_reprocesses_other_byte ',' "hello".toList [] 'w' "orld,next".toList
    (by decide) (by decide) (by decide)

/-- Claim C4: the tokenizer has no malformed-input failure; in
particular, a line that ends inside an unterminated quoted field emits
everything accumulated after the opening quote as the final field. -/
theorem unterminated_quote_is_lenient (delim : Char) (rest buf : List Char)
    (acc : List (List Char)) (hq : '"' ∉ rest) (hd : ¬delim = '"') :
    parseLoop delim rest .qfield buf acc = acc ++ [buf ++ rest] ∧
      s_parse_line_to_row ('"' :: rest) delim = [rest] := by
  refine ⟨parseLoop_qfield_no_quote delim rest buf acc hq, ?_⟩
  have hd2 : ¬('"' = delim) := fun e => hd e.symm
  rw [s_parse_line_to_row, parseLoop.eq_def]
  simp only [hd2, if_false, if_neg, if_pos, reduceIte]
  simpa using parseLoop_qfield_no_quote delim rest [] [] hq

theorem unterminated_quote_is_lenient_witness :
    parseLoop ',' "abc,def".toList .qfield [] [] =
        [] ++ [[] ++ "abc,def".toList] ∧
      s_parse_line_to_row ('"' :: "abc,def".toList) ',' =
        ["abc,def".toList] :=
  unterminated_quote_is_lenient ',' "abc,def".toList [] []
    (by decide) (by decide)

/-- Claim C5: the delimiter resolution of `csv_parser_init` consults only
the first configuration byte, and agrees with the spec rule: absent,
empty, or a first byte in LF, CR, quote, NUL resolves to a comma, and any
other first byte resolves to itself. -/
theorem delim_resolution_matches_spec :
    (∀ cfg, resolveDelim cfg = specResolveDelim cfg) ∧
      ∀ (c : Char) (r r' : List Char),
        resolveDelim (some (c :: r)) = resolveDelim (some (c :: r')) := by
  constructor
  · intro cfg
    match cfg with
    | none => rfl
    | some [] => rfl
    | some (c :: r) =>
      simp only [resolveDelim, specResolveDelim, cstrFirst, Option.isSome,
        true_and]
      split_ifs <;> simp_all <;> tauto
  · intro c r r'
    simp [resolveDelim, cstrFirst]

/-- Claim C6 counterexample: the claim quantifies over every quote-free
line, but a line containing a bare CR (which the line reader does not
strip) is cut short by the tokenizer while the naive split keeps it:
`a CR b` tokenizes to one field `a`, while splitting on the valid
delimiter comma yields one field `a CR b`. -/
theorem tokenizer_split_disagree_on_cr :
    ('"' ∉ ['a', '\r', 'b'] ∧
        ¬(',' = '\n' ∨ ',' = '\r' ∨ ',' = '"' ∨ ',' = '\x00')) ∧
      s_parse_line_to_row ['a', '\r', 'b'] ',' ≠
        splitFields ',' ['a', '\r', 'b'] := by
  refine ⟨by decide, ?_⟩
  have hl : s_parse_line_to_row ['a', '\r', 'b'] ',' = [['a']] := by
    simp [s_parse_line_to_row, parseLoop]
  have hr : splitFields ',' ['a', '\r', 'b'] = [['a', '\r', 'b']] := by
    simp [splitFields, List.modifyHead]
  rw [hl, hr]
  decide

/-- Claim C6 (amended): for every line containing no double-quote byte
and no CR/LF byte, the tokenizer yields exactly the naive split of the
line on the delimiter byte. -/
theorem tokenizer_eq_split_on_clean_lines (delim : Char) (line : List Char)
    (h : ∀ c ∈ line, ¬(c = '"' ∨ c = '\r' ∨ c = '\n')) :
    s_parse_line_to_row line delim = splitFields delim line := by
  rw [s_parse_line_to_row, parseLoop_field_split delim line [] [] h]
  cases hs : splitFields delim line with
  | nil => simp [List.modifyHead]
  | cons f fs => simp [List.modifyHead]

theorem tokenizer_eq_split_on_clean_lines_witness :
    s_parse_line_to_row "a,b,".toList ',' = splitFields ',' "a,b,".toList :=
  tokenizer_eq_split_on_clean_lines ',' "a,b,".toList (by decide)

/-- Claim C7: `line_no` starts at 0 at `csv_parser_init`; each line-read
call never decreases it and advances it by exactly the number of
physical lines consumed; and draining the stream leaves `line_no` at the
total number of physical lines of the input. -/
theorem line_no_accounting (fn cfg : Option (List Char)) (hh : Bool)
    (cs : List Char) (n : Nat) :
    (csv_parser_init fn cfg hh).line_no = 0 ∧
      n ≤ (s_read_next_non_skippable_line cs n).2.2 ∧
      (s_read_next_non_skippable_line cs n).2.2 +
          physLines (s_read_next_non_skippable_line cs n).2.1 =
        n + physLines cs ∧
      drainLineNo cs n = n + physLines cs := by
  refine ⟨rfl, ?_, ?_, drainLineNo_eq cs n⟩
  · rcases hE : s_read_next_non_skippable_line cs n with ⟨res, rest, n2⟩
    obtain ⟨h1, _h2, _h3⟩ := s_read_next_lineNo cs n hE
    simpa [hE] using h1
  · rcases hE : s_read_next_non_skippable_line cs n with ⟨res, rest, n2⟩
    obtain ⟨_h1, h2, _h3⟩ := s_read_next_lineNo cs n hE
    simpa [hE] using h2

/-- Claim C8: in the FIELD state a double-quote opens a quoted field
exactly when the accumulation buffer is empty; after field content it is
appended as a literal byte. -/
theorem field_quote_opens_only_at_start (delim : Char) (buf : List Char)
    (acc : List (List Char)) (rest : List Char) (hd : ¬delim = '"') :
    (parseLoop delim ('"' :: rest) .field [] acc =
        parseLoop delim rest .qfield [] acc) ∧
      (buf ≠ [] →
        parseLoop delim ('"' :: rest) .field buf acc =
          parseLoop delim rest .field (buf ++ ['"']) acc) := by
  have hd2 : ¬('"' = delim) := fun e => hd e.symm
  constructor
  · conv_lhs => rw [parseLoop.eq_def]
    simp [hd2]
  · intro hb
    conv_lhs => rw [parseLoop.eq_def]
    simp [hd2, hb]

theorem field_quote_opens_only_at_start_witness :
    (parseLoop ',' ('"' :: "x".toList) .field [] [] =
        parseLoop ',' "x".toList .qfield [] []) ∧
      parseLoop ',' ('"' :: "x".toList) .field ['a'] [] =
        parseLoop ',' "x".toList .field (['a'] ++ ['"']) [] :=
  ⟨(field_quote_opens_only_at_start ',' ['a'] [] "x".toList (by decide)).1,
   (field_quote_opens_only_at_start ',' ['a'] [] "x".toList (by decide)).2
     (by decide)⟩

/-- Claim C9: the scan loop terminates on every finite input: running the
fuel-indexed loop with `2 * |line| + 2` iterations never exhausts the
fuel and returns the tokenizer result, because the only non-advancing
transition (QESC to FIELD) lowers the state rank, so no position is
processed more than twice. -/
theorem scan_loop_terminates (delim : Char) (line : List Char) :
    parseFuel delim (2 * line.length + 2) line .field [] [] =
      some (s_parse_line_to_row line delim) :=
  parseFuel_complete delim (2 * line.length + 2) line .field [] []
    (by simp [stRank])

/-- Claim C10: every public operation tolerates a null argument:
`csv_parser_header` and `csv_parser_row` on a NULL parser return NULL
without touching anything, and both destroy operations on NULL perform
no teardown action. -/
theorem null_arguments_tolerated (fs : Option (List Char)) :
    csv_parser_header none = HeaderResult.ok none none ∧
      csv_parser_row fs none = (none, none) ∧
      csv_parser_destroy none = [] ∧
      csv_parser_destroy_row none = [] :=
  ⟨rfl, rfl, rfl, rfl⟩

end CsvParser
